import Mathlib

/-!
# Verification of the field-normalization core of `asx_analysis.py`

Shallow embedding of the data model and the operations of the repository's
single source file:

* a pandas `DataFrame` is modelled as an ordered column list together with an
  ordered list of rows, a row being an association list from column name to
  scalar `Value` (`Value.null` stands for `NaN`/`NaT`/`None`);
* numeric cells are modelled as integers (all constants in the source and
  its documented examples are integral);
* `check_and_generate_fields` is the sequential composition of its four
  rules (laden filter, DWT bucketing, date decomposition, commodity
  classification), each translated from the corresponding lines of the
  source;
* pandas aliasing is made explicit: the source rebinds the local `df` to a
  fresh copy only inside the laden-filter branch, so column assignments made
  by the later rules act on the caller's object exactly when that branch did
  not run.  `caller_after` computes the state of the caller's dataframe
  object after the call.
-/

namespace AxsAnalysis

/-- A calendar date `(year, month, day)`; stands for a pandas `Timestamp`
(time-of-day components are irrelevant to every operation modelled here). -/
structure Date where
  y : Int
  m : Nat
  d : Nat
deriving DecidableEq

/-- Inclusive order on dates, lexicographic on (year, month, day);
stands for pandas `Timestamp` comparison. -/
def dateLe (a b : Date) : Prop :=
  a.y < b.y ∨ (a.y = b.y ∧ (a.m < b.m ∨ (a.m = b.m ∧ a.d ≤ b.d)))

instance (a b : Date) : Decidable (dateLe a b) := by
  unfold dateLe; infer_instance

/-- A scalar cell value.  `null` stands for `NaN`/`NaT`/`None`. -/
inductive Value where
  | null : Value
  | str (s : String) : Value
  | num (n : Int) : Value
  | date (d : Date) : Value
deriving DecidableEq

/-- A dataframe row: association list from column name to value.  Reading an
absent column yields `Value.null`, matching pandas where every row of a frame
carries every column, missing entries being `NaN`. -/
abbrev Row := List (String × Value)

/-- Read a cell (`row[col]`); absent columns read as `null` (= `NaN`). -/
def rowGet : Row → String → Value
  | [], _ => .null
  | (k, v) :: r, c => if k = c then v else rowGet r c

/-- Write a cell: update the column in place if present, else append it,
matching pandas column assignment on a single row. -/
def rowSet : Row → String → Value → Row
  | [], c, v => [(c, v)]
  | (k, w) :: r, c, v => if k = c then (c, v) :: r else (k, w) :: rowSet r c v

/-- A dataframe: its ordered column index and its ordered rows. -/
structure DataFrame where
  cols : List String
  rows : List Row
deriving DecidableEq

/-- Append a column name to the index unless already present. -/
def addCol (cols : List String) (c : String) : List String :=
  if c ∈ cols then cols else cols ++ [c]

/-- `df[c] = df.apply(f)`: set column `c` of every row from the row itself. -/
def setColumn (df : DataFrame) (c : String) (f : Row → Value) : DataFrame :=
  { cols := addCol df.cols c,
    rows := df.rows.map (fun r => rowSet r c (f r)) }

/-- A flattened commodity mapping: insertion-ordered association list from
leaf term to `(level1, level2, level3)`, modelling the Python `dict` built by
`build_commodity_mapping` (Python dicts preserve insertion order). -/
abbrev CommodityMapping := List (String × (String × String × String))

/-- First-match lookup; on the mappings built below keys are unique, so this
is exactly Python `dict` lookup / membership. -/
def mapLookup : List (String × α) → String → Option α
  | [], _ => none
  | (k, v) :: r, c => if k = c then some v else mapLookup r c

/-- ASCII lower-casing of one character (`str.lower()`; every string the
source compares is ASCII). -/
def lowerChar (c : Char) : Char :=
  if 'A' ≤ c ∧ c ≤ 'Z' then Char.ofNat (c.toNat + 32) else c

/-- `s.lower()` as a character list. -/
def strLowerChars (s : String) : List Char := s.toList.map lowerChar

/-- `needle` is a prefix of the list. -/
def listStartsWith : List Char → List Char → Bool
  | [], _ => true
  | _ :: _, [] => false
  | a :: as, b :: bs => a == b && listStartsWith as bs

/-- Python substring containment `needle in hay` (empty needle matches). -/
def listHasSub (needle : List Char) : List Char → Bool
  | [] => needle.isEmpty
  | b :: bs => listStartsWith needle (b :: bs) || listHasSub needle bs

/-- Lines 330–343, `get_commodity_levels`: null commodity → `"Unknown"`
triple; exact dict lookup; else the first key (in mapping iteration order)
whose lower-casing is a substring of the lower-cased commodity; else the
`"Unknown"` triple.  A non-string, non-null commodity cannot occur in a
string column read from CSV (cells are strings or `NaN`) and is mapped to
the `"Unknown"` triple. -/
def get_commodity_levels (m : CommodityMapping) (v : Value) :
    String × String × String :=
  match v with
  | .null => ("Unknown", "Unknown", "Unknown")
  | .str c =>
    match mapLookup m c with
    | some t => t
    | none =>
      match m.find? (fun p => listHasSub (strLowerChars p.1) (strLowerChars c)) with
      | some p => p.2
      | none => ("Unknown", "Unknown", "Unknown")
  | _ => ("Unknown", "Unknown", "Unknown")

/-- Lines 284–296, `get_dwt_type`: `none` stands for a missing (`NaN`)
deadweight; otherwise inclusive thresholds checked top-down. -/
def get_dwt_type (dwt : Option Int) : String :=
  match dwt with
  | none => "Unknown"
  | some n =>
    if n ≥ 200000 then "VLOC"
    else if n ≥ 100000 then "Capesize"
    else if n ≥ 65000 then "Panamax/Kamsarmax"
    else if n ≥ 40000 then "Supramax/Ultramax"
    else "Handysize"

/-- View a cell as a number; everything non-numeric is `NaN` for
`pd.isna`. -/
def asNum : Value → Option Int
  | .num n => some n
  | _ => none

/-- Split a character list at every occurrence of the separator. -/
def splitOnChar (sep : Char) : List Char → List (List Char)
  | [] => [[]]
  | c :: rest =>
    let ps := splitOnChar sep rest
    if c = sep then [] :: ps
    else
      match ps with
      | [] => [[c]]
      | p :: pr => (c :: p) :: pr

/-- Parse a non-empty all-digit character list as a number. -/
def digitsToNat? (l : List Char) : Option Nat :=
  if l ≠ [] ∧ l.all (fun c => c.isDigit) then
    some (l.foldl (fun acc c => acc * 10 + (c.toNat - '0'.toNat)) 0)
  else none

/-- ISO `y-m-d` date parsing; stands for `pd.to_datetime(·, errors="coerce")`
on the string cells this pipeline feeds it. -/
def parseIsoDate (s : String) : Option Date :=
  match splitOnChar '-' s.toList with
  | [ys, ms, ds] =>
    match digitsToNat? ys, digitsToNat? ms, digitsToNat? ds with
    | some y, some mo, some da =>
      if 1 ≤ mo ∧ mo ≤ 12 ∧ 1 ≤ da ∧ da ≤ 31 then some ⟨(y : Int), mo, da⟩ else none
    | _, _, _ => none
  | _ => none

/-- A cell as a date, if it is one or parses as one. -/
def parseDateValue : Value → Option Date
  | .date d => some d
  | .str s => parseIsoDate s
  | _ => none

/-- Line 308: coerce a cell to a date, unparseable cells becoming null
(`errors="coerce"`). -/
def dateCoerce (v : Value) : Value :=
  match parseDateValue v with
  | some d => .date d
  | none => .null

/-- `dt.year` of a coerced date cell (`NaT → NaN`). -/
def yearVal : Value → Value
  | .date d => .num d.y
  | _ => .null

/-- `"Q" + dt.quarter.astype(str)`; on `NaT` the float `NaN` prints as
`"nan"`, so the cell becomes `"Qnan"`. -/
def quarterVal : Value → Value
  | .date d => .str ("Q" ++ toString ((d.m - 1) / 3 + 1))
  | _ => .str "Qnan"

/-- `"M" + dt.month.astype(str)`; `NaT` as in `quarterVal`. -/
def monthVal : Value → Value
  | .date d => .str ("M" ++ toString d.m)
  | _ => .str "Mnan"

/-- Row predicate of line 275/278: `df["voyage_type"] == "laden"`
(`NaN == "laden"` is false in pandas, as here). -/
def isLadenRow (r : Row) : Bool :=
  decide (rowGet r "voyage_type" = .str "laden")

/-- Rule 1, lines 274–280: laden-voyage filter.  The boolean records whether
the branch making a fresh copy (`df[...].copy()`) ran, i.e. whether rows
were dropped. -/
def step1 (df : DataFrame) : DataFrame × Bool :=
  if "voyage_type" ∈ df.cols then
    let laden := df.rows.filter isLadenRow
    if laden.length < df.rows.length then ({ df with rows := laden }, true)
    else (df, false)
  else (df, false)

/-- Rule 2, lines 283–300: DWT bucketing. -/
def step2 (df : DataFrame) : DataFrame × Bool :=
  if "vessel_dwt_type" ∉ df.cols ∧ "vsl_dwt" ∈ df.cols then
    (setColumn df "vessel_dwt_type"
      (fun r => .str (get_dwt_type (asNum (rowGet r "vsl_dwt")))), true)
  else (df, false)

/-- The three date-derived field names of line 303. -/
def dateFieldNames : List String := ["Year", "Quarter", "Month"]

/-- A column assignment gated on its own column's absence
(`if "Year" not in df.columns: df["Year"] = ...`). -/
def maybeSet (df : DataFrame) (c : String) (f : Row → Value) : DataFrame :=
  if c ∈ df.cols then df else setColumn df c f

/-- Rule 3, lines 302–323: date decomposition.  Under the outer gate the
date column is first coerced, then each still-missing field is filled from
it; at least one sub-rule fires under the gate, so `modified` is set exactly
when the gate holds. -/
def step3 (df : DataFrame) : DataFrame × Bool :=
  if (dateFieldNames.filter (fun f => decide (f ∉ df.cols))) ≠ [] ∧
      "load_end_date" ∈ df.cols then
    let df0 := setColumn df "load_end_date"
      (fun r => dateCoerce (rowGet r "load_end_date"))
    let df1 := maybeSet df0 "Year" (fun r => yearVal (rowGet r "load_end_date"))
    let df2 := maybeSet df1 "Quarter" (fun r => quarterVal (rowGet r "load_end_date"))
    let df3 := maybeSet df2 "Month" (fun r => monthVal (rowGet r "load_end_date"))
    (df3, true)
  else (df, false)

/-- The three commodity-derived field names of line 326. -/
def commodityFieldNames : List String :=
  ["commodity_type_1level", "commodity_type_2level", "commodity_type_3level"]

/-- Per-row effect of the simultaneous three-column assignment of
lines 346–349: the triple is computed once from the row's `commodity` cell
and written into the three level columns. -/
def step4Row (m : CommodityMapping) (r : Row) : Row :=
  let t := get_commodity_levels m (rowGet r "commodity")
  rowSet (rowSet (rowSet r "commodity_type_1level" (.str t.1))
      "commodity_type_2level" (.str t.2.1))
    "commodity_type_3level" (.str t.2.2)

/-- Rule 4, lines 325–351: commodity classification. -/
def step4 (df : DataFrame) (m : CommodityMapping) : DataFrame × Bool :=
  if (commodityFieldNames.filter (fun f => decide (f ∉ df.cols))) ≠ [] ∧
      "commodity" ∈ df.cols ∧ m ≠ [] then
    ({ cols := addCol (addCol (addCol df.cols "commodity_type_1level")
          "commodity_type_2level") "commodity_type_3level",
       rows := df.rows.map (step4Row m) }, true)
  else (df, false)

/-- Lines 269–353, `check_and_generate_fields`: the four rules in source
order; `modified` is their disjunction. -/
def check_and_generate_fields (df : DataFrame) (m : CommodityMapping) :
    DataFrame × Bool :=
  let r1 := step1 df
  let r2 := step2 r1.1
  let r3 := step3 r2.1
  let r4 := step4 r3.1 m
  (r4.1, r1.2 || r2.2 || r3.2 || r4.2)

/-- State of the caller's dataframe object after the call: the local `df` is
rebound to a fresh copy only inside the laden-filter branch
(`df = df[...].copy()`, line 278); in every other run the later rules'
column assignments act on the very object the caller passed in. -/
def caller_after (df : DataFrame) (m : CommodityMapping) : DataFrame :=
  if (step1 df).2 then df else (check_and_generate_fields df m).1

/-- The commodity taxonomy (lines 249–267 and §6): a JSON-like nested
structure whose object keys map to nested objects or to arrays of leaf term
strings. -/
inductive TaxNode where
  | node (children : List (String × TaxNode)) : TaxNode
  | leaves (items : List String) : TaxNode

/-- Level assignment of lines 261–263: `level1 = path[0]` if the path is
non-empty else `"Unknown"`; `level2 = path[1]` if the path has ≥ 2 elements
else `level1`; `level3 = path[2]` if ≥ 3 elements else `level2`. -/
def levelsOfPath (path : List String) : String × String × String :=
  let level1 := path.getD 0 "Unknown"
  let level2 := path.getD 1 level1
  let level3 := path.getD 2 level2
  (level1, level2, level3)

/-- Python `mapping[item] = v` on an insertion-ordered dict: update the
entry in place when the key exists (keys are unique in a dict, so updating
the first occurrence is updating the occurrence), else append. -/
def dictInsert : List (String × α) → String → α → List (String × α)
  | [], k, v => [(k, v)]
  | p :: rest, k, v =>
    if p.1 = k then (k, v) :: rest else p :: dictInsert rest k v

/-- Line 260–264: insert every leaf term of a terminal node. -/
def insertLeaves (items : List String) (path : List String)
    (mapping : CommodityMapping) : CommodityMapping :=
  match items with
  | [] => mapping
  | item :: rest => insertLeaves rest path (dictInsert mapping item (levelsOfPath path))

mutual

/-- Lines 253–264, `traverse`: depth-first traversal carrying the ancestor
path, mutating the mapping, here threaded as state. -/
def traverse (node : TaxNode) (path : List String)
    (mapping : CommodityMapping) : CommodityMapping :=
  match node with
  | .node children => traverseChildren children path mapping
  | .leaves items => insertLeaves items path mapping

/-- Iteration over an internal node's children in insertion order. -/
def traverseChildren (children : List (String × TaxNode)) (path : List String)
    (mapping : CommodityMapping) : CommodityMapping :=
  match children with
  | [] => mapping
  | (key, child) :: rest =>
    traverseChildren rest path (traverse child (path ++ [key]) mapping)

end

/-- Lines 249–267, `build_commodity_mapping`. -/
def build_commodity_mapping (hierarchy : TaxNode) : CommodityMapping :=
  traverse hierarchy [] []

mutual

/-- The `(leaf, triple)` pairs in traversal order, used to characterise the
mapping: `traverse` is their left fold by `dictInsert`. -/
def traversalPairs : TaxNode → List String → CommodityMapping
  | .leaves items, path => items.map (fun item => (item, levelsOfPath path))
  | .node children, path => traversalPairsChildren children path

/-- Companion of `traversalPairs` on child lists. -/
def traversalPairsChildren : List (String × TaxNode) → List String → CommodityMapping
  | [], _ => []
  | (key, child) :: rest, path =>
    traversalPairs child (path ++ [key]) ++ traversalPairsChildren rest path

end

/-- `ReachesVia t p leaf`: descending from the root of `t` through the
category keys of `p` ends at a terminal node containing `leaf` — the
spec-side notion of a leaf reachable via ancestor path `p`. -/
inductive ReachesVia : TaxNode → List String → String → Prop where
  | here {items : List String} {leaf : String} :
      leaf ∈ items → ReachesVia (.leaves items) [] leaf
  | child {cs : List (String × TaxNode)} {k : String} {t : TaxNode}
      {p : List String} {leaf : String} :
      (k, t) ∈ cs → ReachesVia t p leaf → ReachesVia (.node cs) (k :: p) leaf

/-- Measure of lines 425/429: `voy_intake_mt`, missing/non-numeric cells
summing as 0. -/
def measureOf (r : Row) : Int :=
  match rowGet r "voy_intake_mt" with
  | .num n => n
  | _ => 0

/-- The distinct non-null key values of a column (`groupby` drops null
keys).  The enumeration order only influences the order of sum ties, which
the source leaves unspecified (its `sort_values` uses an unstable sort). -/
def distinctKeys (rows : List Row) (key : String) : List Value :=
  ((rows.map (fun r => rowGet r key)).filter
    (fun v => decide (v ≠ Value.null))).dedup

/-- Line 425/429: `groupby(key)["voy_intake_mt"].sum()` as (key, sum)
pairs. -/
def groupby_sum (rows : List Row) (key : String) : List (Value × Int) :=
  (distinctKeys rows key).map (fun k =>
    (k, ((rows.filter (fun r => decide (rowGet r key = k))).map measureOf).sum))

/-- Line 426/430: `sort_values("voy_intake_mt", ascending=False)`. -/
def sort_values_desc (l : List (Value × Int)) : List (Value × Int) :=
  l.insertionSort (fun a b => b.2 ≤ a.2)

/-- Lines 425–426 parameterised by the truncation: grouped sums, sorted
descending, truncated to the first `k` groups (`.head(10)` is `k = 10`). -/
def trade_flow_agg (rows : List Row) (key : String) (k : Nat) :
    List (Value × Int) :=
  (sort_values_desc (groupby_sum rows key)).take k

/-- Lines 395–405 / 606–616: `df[df[col].isin(sel)]`, skipped when the
selection is empty (`if vessel_type:` is false for `None` and `[]`). -/
def isinFilter (df : DataFrame) (col : String) (sel : List Value) : DataFrame :=
  if sel = [] then df
  else { df with rows := df.rows.filter (fun r => decide (rowGet r col ∈ sel)) }

/-- Lines 619–622: inclusive date-interval filter on `load_end_date`;
a `NaT`/non-date cell compares false on both bounds and is dropped. -/
def dateFilter (df : DataFrame) (range : Option (Date × Date)) : DataFrame :=
  match range with
  | none => df
  | some (s, e) =>
    { df with rows := df.rows.filter (fun r =>
        match rowGet r "load_end_date" with
        | .date d => decide (dateLe s d ∧ dateLe d e)
        | _ => false) }

/-- Lines 629–630: location filter, gated on a non-empty selection and the
column existing. -/
def locationFilter (df : DataFrame) (locType : String) (sel : List Value) :
    DataFrame :=
  if sel ≠ [] ∧ locType ∈ df.cols then
    { df with rows := df.rows.filter (fun r => decide (rowGet r locType ∈ sel)) }
  else df

/-- Lines 604–630, the filtering prefix of `create_time_series_charts`: the
four dimension filters, the date-interval filter, then the location filter
(the emptiness early-return between them only skips rendering). -/
def create_time_series_filter (df : DataFrame)
    (vessel c1 c2 c3 : List Value) (range : Option (Date × Date))
    (locType : String) (locSel : List Value) : DataFrame :=
  locationFilter
    (dateFilter
      (isinFilter (isinFilter (isinFilter (isinFilter df
        "vessel_dwt_type" vessel)
        "commodity_type_1level" c1)
        "commodity_type_2level" c2)
        "commodity_type_3level" c3)
      range)
    locType locSel

/-! ## Basic lemmas on rows, columns and the generator's steps -/

theorem rowGet_rowSet_self (r : Row) (c : String) (v : Value) :
    rowGet (rowSet r c v) c = v := by
  induction r with
  | nil => simp [rowSet, rowGet]
  | cons p r ih =>
    by_cases h : p.1 = c
    · simp [rowSet, rowGet, h]
    · simp [rowSet, rowGet, h, ih]

theorem rowGet_rowSet_ne (r : Row) {c c' : String} (h : c ≠ c') (v : Value) :
    rowGet (rowSet r c v) c' = rowGet r c' := by
  induction r with
  | nil => simp [rowSet, rowGet, h]
  | cons p r ih =>
    rcases p with ⟨k, w⟩
    by_cases hp : k = c
    · subst hp
      simp [rowSet, rowGet, h]
    · simp only [rowSet, if_neg hp, rowGet]
      by_cases hk : k = c'
      · rw [if_pos hk, if_pos hk]
      · rw [if_neg hk, if_neg hk]
        exact ih

theorem mem_addCol {cols : List String} {c x : String} :
    x ∈ addCol cols c ↔ x ∈ cols ∨ x = c := by
  unfold addCol
  split
  · next h =>
    constructor
    · exact fun hx => Or.inl hx
    · rintro (hx | rfl)
      · exact hx
      · exact h
  · simp

theorem setColumn_cols_mem {df : DataFrame} {c : String} {f : Row → Value}
    {x : String} : x ∈ (setColumn df c f).cols ↔ x ∈ df.cols ∨ x = c :=
  mem_addCol

theorem setColumn_rows (df : DataFrame) (c : String) (f : Row → Value) :
    (setColumn df c f).rows = df.rows.map (fun r => rowSet r c (f r)) := rfl

theorem maybeSet_cols_mem {df : DataFrame} {c : String} {f : Row → Value}
    {x : String} : x ∈ (maybeSet df c f).cols ↔ x ∈ df.cols ∨ x = c := by
  unfold maybeSet
  split
  · next h =>
    constructor
    · exact fun hx => Or.inl hx
    · rintro (hx | rfl)
      · exact hx
      · exact h
  · exact setColumn_cols_mem

theorem setColumn_map_rowGet (df : DataFrame) (c : String) (f : Row → Value)
    {c' : String} (h : c ≠ c') :
    (setColumn df c f).rows.map (fun r => rowGet r c')
      = df.rows.map (fun r => rowGet r c') := by
  rw [setColumn_rows, List.map_map]
  exact List.map_congr_left (fun r _ => rowGet_rowSet_ne r h (f r))

theorem maybeSet_map_rowGet (df : DataFrame) (c : String) (f : Row → Value)
    {c' : String} (h : c ≠ c') :
    (maybeSet df c f).rows.map (fun r => rowGet r c')
      = df.rows.map (fun r => rowGet r c') := by
  unfold maybeSet
  split
  · rfl
  · exact setColumn_map_rowGet df c f h

/-- Invariant after rule 1: if the `voyage_type` column exists, every row is
laden. -/
def AllLaden (df : DataFrame) : Prop :=
  "voyage_type" ∈ df.cols → ∀ r ∈ df.rows, isLadenRow r = true

/-- Invariant after rule 2: its gate is off. -/
def DwtDone (df : DataFrame) : Prop :=
  "vessel_dwt_type" ∈ df.cols ∨ "vsl_dwt" ∉ df.cols

/-- Invariant after rule 3: its gate is off. -/
def DatesDone (df : DataFrame) : Prop :=
  (∀ f ∈ dateFieldNames, f ∈ df.cols) ∨ "load_end_date" ∉ df.cols

/-- Invariant after rule 4: its gate is off. -/
def CommodityDone (df : DataFrame) (m : CommodityMapping) : Prop :=
  (∀ f ∈ commodityFieldNames, f ∈ df.cols) ∨ "commodity" ∉ df.cols ∨ m = []

theorem step1_cols (df : DataFrame) : (step1 df).1.cols = df.cols := by
  unfold step1
  split
  · dsimp only
    split <;> rfl
  · rfl

theorem step1_rows_eq_filter (df : DataFrame) (h : "voyage_type" ∈ df.cols) :
    (step1 df).1.rows = df.rows.filter isLadenRow := by
  unfold step1
  rw [if_pos h]
  dsimp only
  split
  · rfl
  · next hlt =>
    have heq : (df.rows.filter isLadenRow).length = df.rows.length :=
      le_antisymm (List.length_filter_le _ _) (le_of_not_lt hlt)
    exact ((List.filter_sublist df.rows).eq_of_length heq).symm

theorem step1_fst_of_not_mem (df : DataFrame) (h : "voyage_type" ∉ df.cols) :
    step1 df = (df, false) := by
  unfold step1
  rw [if_neg h]

theorem step1_snd_true_iff (df : DataFrame) :
    (step1 df).2 = true ↔
      "voyage_type" ∈ df.cols ∧ ∃ r ∈ df.rows, isLadenRow r = false := by
  unfold step1
  split
  · next hc =>
    dsimp only
    split
    · next hlt =>
      apply iff_of_true rfl
      refine ⟨hc, ?_⟩
      by_contra hno
      push_neg at hno
      have : df.rows.filter isLadenRow = df.rows :=
        List.filter_eq_self.mpr (fun r hr => by
          cases hb : isLadenRow r
          · exact absurd hb (by simpa using hno r hr)
          · rfl)
      rw [this] at hlt
      exact lt_irrefl _ hlt
    · next hlt =>
      apply iff_of_false (by simp)
      rintro ⟨_, r, hr, hfalse⟩
      apply hlt
      have hne : df.rows.filter isLadenRow ≠ df.rows := by
        intro he
        have := List.filter_eq_self.mp he r hr
        rw [hfalse] at this
        exact Bool.false_ne_true this
      exact lt_of_le_of_ne (List.length_filter_le _ _) (fun hl =>
        hne ((List.filter_sublist df.rows).eq_of_length hl))
  · next hc =>
    apply iff_of_false (by simp)
    rintro ⟨h, _⟩
    exact hc h

theorem step1_off (df : DataFrame) (h : AllLaden df) : step1 df = (df, false) := by
  unfold step1
  by_cases hc : "voyage_type" ∈ df.cols
  · rw [if_pos hc]
    have hfe : df.rows.filter isLadenRow = df.rows :=
      List.filter_eq_self.mpr (fun r hr => h hc r hr)
    dsimp only
    rw [if_neg (by rw [hfe]; exact lt_irrefl _)]
  · rw [if_neg hc]

theorem step1_post (df : DataFrame) : AllLaden (step1 df).1 := by
  intro hc r hr
  by_cases hm : "voyage_type" ∈ df.cols
  · rw [step1_rows_eq_filter df hm] at hr
    exact List.of_mem_filter hr
  · rw [step1_fst_of_not_mem df hm] at hc
    exact absurd hc hm

theorem step2_cols_mono (df : DataFrame) {x : String} (h : x ∈ df.cols) :
    x ∈ (step2 df).1.cols := by
  unfold step2
  split
  · exact setColumn_cols_mem.mpr (Or.inl h)
  · exact h

theorem step2_cols_new (df : DataFrame) {x : String}
    (h : x ∈ (step2 df).1.cols) : x ∈ df.cols ∨ x = "vessel_dwt_type" := by
  unfold step2 at h
  split at h
  · exact setColumn_cols_mem.mp h
  · exact Or.inl h

theorem step2_map_rowGet (df : DataFrame) {c' : String}
    (h : c' ≠ "vessel_dwt_type") :
    (step2 df).1.rows.map (fun r => rowGet r c')
      = df.rows.map (fun r => rowGet r c') := by
  unfold step2
  split
  · exact setColumn_map_rowGet _ _ _ (Ne.symm h)
  · rfl

theorem step2_off (df : DataFrame) (h : DwtDone df) : step2 df = (df, false) := by
  unfold step2
  rw [if_neg]
  rintro ⟨h1, h2⟩
  rcases h with h | h
  · exact h1 h
  · exact h h2

theorem step2_post (df : DataFrame) : DwtDone (step2 df).1 := by
  unfold DwtDone step2
  split
  · exact Or.inl (setColumn_cols_mem.mpr (Or.inr rfl))
  · next hg =>
    rcases not_and_or.mp hg with h | h
    · exact Or.inl (not_not.mp h)
    · exact Or.inr h

theorem step3_cols_mono (df : DataFrame) {x : String} (h : x ∈ df.cols) :
    x ∈ (step3 df).1.cols := by
  unfold step3
  split
  · dsimp only
    exact maybeSet_cols_mem.mpr (Or.inl (maybeSet_cols_mem.mpr (Or.inl
      (maybeSet_cols_mem.mpr (Or.inl (setColumn_cols_mem.mpr (Or.inl h)))))))
  · exact h

theorem step3_cols_new (df : DataFrame) {x : String}
    (h : x ∈ (step3 df).1.cols) :
    x ∈ df.cols ∨ x = "load_end_date" ∨ x = "Year" ∨ x = "Quarter" ∨
      x = "Month" := by
  unfold step3 at h
  split at h
  · dsimp only at h
    rcases maybeSet_cols_mem.mp h with h | rfl
    · rcases maybeSet_cols_mem.mp h with h | rfl
      · rcases maybeSet_cols_mem.mp h with h | rfl
        · rcases setColumn_cols_mem.mp h with h | rfl
          · exact Or.inl h
          · exact Or.inr (Or.inl rfl)
        · exact Or.inr (Or.inr (Or.inl rfl))
      · exact Or.inr (Or.inr (Or.inr (Or.inl rfl)))
    · exact Or.inr (Or.inr (Or.inr (Or.inr rfl)))
  · exact Or.inl h

theorem step3_map_rowGet (df : DataFrame) {c' : String}
    (h1 : c' ≠ "load_end_date") (h2 : c' ≠ "Year") (h3 : c' ≠ "Quarter")
    (h4 : c' ≠ "Month") :
    (step3 df).1.rows.map (fun r => rowGet r c')
      = df.rows.map (fun r => rowGet r c') := by
  unfold step3
  split
  · dsimp only
    rw [maybeSet_map_rowGet _ _ _ (Ne.symm h4),
      maybeSet_map_rowGet _ _ _ (Ne.symm h3),
      maybeSet_map_rowGet _ _ _ (Ne.symm h2),
      setColumn_map_rowGet _ _ _ (Ne.symm h1)]
  · rfl

theorem step3_off (df : DataFrame) (h : DatesDone df) : step3 df = (df, false) := by
  unfold step3
  rw [if_neg]
  rintro ⟨hne, hled⟩
  rcases h with h | h
  · exact hne (List.filter_eq_nil_iff.mpr (fun f hf => by simp [h f hf]))
  · exact h hled

theorem step3_post (df : DataFrame) : DatesDone (step3 df).1 := by
  unfold DatesDone step3
  split
  · dsimp only
    left
    intro f hf
    simp only [dateFieldNames, List.mem_cons, List.not_mem_nil, or_false] at hf
    rcases hf with rfl | rfl | rfl
    · exact maybeSet_cols_mem.mpr (Or.inl (maybeSet_cols_mem.mpr (Or.inl
        (maybeSet_cols_mem.mpr (Or.inr rfl)))))
    · exact maybeSet_cols_mem.mpr (Or.inl (maybeSet_cols_mem.mpr (Or.inr rfl)))
    · exact maybeSet_cols_mem.mpr (Or.inr rfl)
  · next hg =>
    rcases not_and_or.mp hg with h | h
    · left
      intro f hf
      have hnil := not_not.mp h
      have := List.filter_eq_nil_iff.mp hnil f hf
      simpa using this
    · exact Or.inr h

theorem step4Row_rowGet_ne (m : CommodityMapping) (r : Row) {c' : String}
    (h1 : c' ≠ "commodity_type_1level") (h2 : c' ≠ "commodity_type_2level")
    (h3 : c' ≠ "commodity_type_3level") :
    rowGet (step4Row m r) c' = rowGet r c' := by
  unfold step4Row
  rw [rowGet_rowSet_ne _ (Ne.symm h3), rowGet_rowSet_ne _ (Ne.symm h2),
    rowGet_rowSet_ne _ (Ne.symm h1)]

theorem step4_cols_mono (df : DataFrame) (m : CommodityMapping) {x : String}
    (h : x ∈ df.cols) : x ∈ (step4 df m).1.cols := by
  unfold step4
  split
  · exact mem_addCol.mpr (Or.inl (mem_addCol.mpr (Or.inl
      (mem_addCol.mpr (Or.inl h)))))
  · exact h

theorem step4_cols_new (df : DataFrame) (m : CommodityMapping) {x : String}
    (h : x ∈ (step4 df m).1.cols) :
    x ∈ df.cols ∨ x = "commodity_type_1level" ∨ x = "commodity_type_2level" ∨
      x = "commodity_type_3level" := by
  unfold step4 at h
  split at h
  · rcases mem_addCol.mp h with h | rfl
    · rcases mem_addCol.mp h with h | rfl
      · rcases mem_addCol.mp h with h | rfl
        · exact Or.inl h
        · exact Or.inr (Or.inl rfl)
      · exact Or.inr (Or.inr (Or.inl rfl))
    · exact Or.inr (Or.inr (Or.inr rfl))
  · exact Or.inl h

theorem step4_map_rowGet (df : DataFrame) (m : CommodityMapping) {c' : String}
    (h1 : c' ≠ "commodity_type_1level") (h2 : c' ≠ "commodity_type_2level")
    (h3 : c' ≠ "commodity_type_3level") :
    (step4 df m).1.rows.map (fun r => rowGet r c')
      = df.rows.map (fun r => rowGet r c') := by
  unfold step4
  split
  · dsimp only
    rw [List.map_map]
    exact List.map_congr_left (fun r _ => step4Row_rowGet_ne m r h1 h2 h3)
  · rfl

theorem step4_off (df : DataFrame) (m : CommodityMapping)
    (h : CommodityDone df m) : step4 df m = (df, false) := by
  unfold step4
  rw [if_neg]
  rintro ⟨hne, hcom, hm⟩
  rcases h with h | h | h
  · exact hne (List.filter_eq_nil_iff.mpr (fun f hf => by simp [h f hf]))
  · exact h hcom
  · exact hm h

theorem step4_post (df : DataFrame) (m : CommodityMapping) :
    CommodityDone (step4 df m).1 m := by
  unfold CommodityDone step4
  split
  · left
    intro f hf
    simp only [commodityFieldNames, List.mem_cons, List.not_mem_nil, or_false] at hf
    rcases hf with rfl | rfl | rfl
    · exact mem_addCol.mpr (Or.inl (mem_addCol.mpr (Or.inl
        (mem_addCol.mpr (Or.inr rfl)))))
    · exact mem_addCol.mpr (Or.inl (mem_addCol.mpr (Or.inr rfl)))
    · exact mem_addCol.mpr (Or.inr rfl)
  · next hg =>
    rcases not_and_or.mp hg with h | h
    · left
      intro f hf
      have hnil := not_not.mp h
      have := List.filter_eq_nil_iff.mp hnil f hf
      simpa using this
    · rcases not_and_or.mp h with h | h
      · exact Or.inr (Or.inl h)
      · exact Or.inr (Or.inr (not_not.mp h))

theorem allLaden_of_map {df df' : DataFrame}
    (hrows : df'.rows.map (fun r => rowGet r "voyage_type")
      = df.rows.map (fun r => rowGet r "voyage_type"))
    (hcols : "voyage_type" ∈ df'.cols → "voyage_type" ∈ df.cols)
    (h : AllLaden df) : AllLaden df' := by
  intro hc r' hr'
  have hm : rowGet r' "voyage_type"
      ∈ df.rows.map (fun r => rowGet r "voyage_type") := by
    rw [← hrows]
    exact List.mem_map_of_mem _ hr'
  rcases List.mem_map.mp hm with ⟨r, hr, he⟩
  have hl := h (hcols hc) r hr
  unfold isLadenRow at hl ⊢
  rw [← he]
  exact hl

theorem step2_preserves_allLaden (df : DataFrame) (h : AllLaden df) :
    AllLaden (step2 df).1 :=
  allLaden_of_map (step2_map_rowGet df (by decide))
    (fun hc => (step2_cols_new df hc).resolve_right (by decide)) h

theorem step3_preserves_allLaden (df : DataFrame) (h : AllLaden df) :
    AllLaden (step3 df).1 :=
  allLaden_of_map (step3_map_rowGet df (by decide) (by decide) (by decide) (by decide))
    (fun hc => by
      rcases step3_cols_new df hc with h' | h' | h' | h' | h'
      · exact h'
      all_goals exact absurd h' (by decide)) h

theorem step4_preserves_allLaden (df : DataFrame) (m : CommodityMapping)
    (h : AllLaden df) : AllLaden (step4 df m).1 :=
  allLaden_of_map (step4_map_rowGet df m (by decide) (by decide) (by decide))
    (fun hc => by
      rcases step4_cols_new df m hc with h' | h' | h' | h'
      · exact h'
      all_goals exact absurd h' (by decide)) h

theorem step3_preserves_dwtDone (df : DataFrame) (h : DwtDone df) :
    DwtDone (step3 df).1 := by
  rcases h with h | h
  · exact Or.inl (step3_cols_mono df h)
  · right
    intro hc
    rcases step3_cols_new df hc with h' | h' | h' | h' | h'
    · exact h h'
    all_goals exact absurd h' (by decide)

theorem step4_preserves_dwtDone (df : DataFrame) (m : CommodityMapping)
    (h : DwtDone df) : DwtDone (step4 df m).1 := by
  rcases h with h | h
  · exact Or.inl (step4_cols_mono df m h)
  · right
    intro hc
    rcases step4_cols_new df m hc with h' | h' | h' | h'
    · exact h h'
    all_goals exact absurd h' (by decide)

theorem step4_preserves_datesDone (df : DataFrame) (m : CommodityMapping)
    (h : DatesDone df) : DatesDone (step4 df m).1 := by
  rcases h with h | h
  · exact Or.inl (fun f hf => step4_cols_mono df m (h f hf))
  · right
    intro hc
    rcases step4_cols_new df m hc with h' | h' | h' | h'
    · exact h h'
    all_goals exact absurd h' (by decide)

theorem check_fst (df : DataFrame) (m : CommodityMapping) :
    (check_and_generate_fields df m).1
      = (step4 (step3 (step2 (step1 df).1).1).1 m).1 := rfl

theorem check_snd (df : DataFrame) (m : CommodityMapping) :
    (check_and_generate_fields df m).2
      = ((step1 df).2 || (step2 (step1 df).1).2 || (step3 (step2 (step1 df).1).1).2
          || (step4 (step3 (step2 (step1 df).1).1).1 m).2) := rfl

/-- C2: the derived-field generator is idempotent — a second pass over its
own output returns that output unchanged with `changed = false`. -/
theorem check_and_generate_fields_idempotent (df : DataFrame)
    (m : CommodityMapping) :
    check_and_generate_fields (check_and_generate_fields df m).1 m
      = ((check_and_generate_fields df m).1, false) := by
  set d := (check_and_generate_fields df m).1 with hd
  have h1 : AllLaden d := by
    rw [hd, check_fst]
    exact step4_preserves_allLaden _ _ (step3_preserves_allLaden _
      (step2_preserves_allLaden _ (step1_post df)))
  have h2 : DwtDone d := by
    rw [hd, check_fst]
    exact step4_preserves_dwtDone _ _ (step3_preserves_dwtDone _ (step2_post _))
  have h3 : DatesDone d := by
    rw [hd, check_fst]
    exact step4_preserves_datesDone _ _ (step3_post _)
  have h4 : CommodityDone d m := by
    rw [hd, check_fst]
    exact step4_post _ m
  simp only [check_and_generate_fields]
  rw [step1_off _ h1]
  dsimp only
  rw [step2_off _ h2]
  dsimp only
  rw [step3_off _ h3]
  dsimp only
  rw [step4_off _ _ h4]
  rfl

theorem step1_fst_of_false {df : DataFrame} (h : (step1 df).2 = false) :
    (step1 df).1 = df := by
  by_cases hc : "voyage_type" ∈ df.cols
  · by_cases hlt : (df.rows.filter isLadenRow).length < df.rows.length
    · exfalso
      unfold step1 at h
      rw [if_pos hc] at h
      dsimp only at h
      rw [if_pos hlt] at h
      cases h
    · unfold step1
      rw [if_pos hc]
      dsimp only
      rw [if_neg hlt]
  · unfold step1
    rw [if_neg hc]

theorem step2_fst_of_false {df : DataFrame} (h : (step2 df).2 = false) :
    (step2 df).1 = df := by
  by_cases hg : "vessel_dwt_type" ∉ df.cols ∧ "vsl_dwt" ∈ df.cols
  · exfalso
    unfold step2 at h
    rw [if_pos hg] at h
    cases h
  · unfold step2
    rw [if_neg hg]

theorem step3_fst_of_false {df : DataFrame} (h : (step3 df).2 = false) :
    (step3 df).1 = df := by
  by_cases hg : (dateFieldNames.filter (fun f => decide (f ∉ df.cols))) ≠ [] ∧
      "load_end_date" ∈ df.cols
  · exfalso
    unfold step3 at h
    rw [if_pos hg] at h
    cases h
  · unfold step3
    rw [if_neg hg]

theorem step4_fst_of_false {df : DataFrame} {m : CommodityMapping}
    (h : (step4 df m).2 = false) : (step4 df m).1 = df := by
  by_cases hg : (commodityFieldNames.filter (fun f => decide (f ∉ df.cols))) ≠ [] ∧
      "commodity" ∈ df.cols ∧ m ≠ []
  · exfalso
    unfold step4 at h
    rw [if_pos hg] at h
    cases h
  · unfold step4
    rw [if_neg hg]

/-- A one-row dataset holding only a deadweight: the laden filter cannot
fire on it, so the later column assignments alias the caller's object. -/
def dfDwtOnly : DataFrame :=
  { cols := ["vsl_dwt"], rows := [[("vsl_dwt", Value.num 0)]] }

/-- A one-row dataset whose single voyage is not laden, so the laden filter
drops it and rebinds the local frame to a fresh copy. -/
def dfBallast : DataFrame :=
  { cols := ["voyage_type"], rows := [[("voyage_type", Value.str "ballast")]] }

/-- C1 (counterexample): the generator is *not* mutation-free.  On a dataset
with no `voyage_type` column the laden filter makes no copy, so the
`vessel_dwt_type` column assignment lands on the caller's object: after the
call the caller's dataframe differs from what was passed in. -/
theorem check_and_generate_fields_mutates_input_cex :
    caller_after dfDwtOnly [] ≠ dfDwtOnly := by
  decide

/-- C1 (amended): the input is untouched exactly when the laden filter made
a copy (it dropped rows) or when nothing changed at all; in every other run
the caller's object ends equal to the returned (modified) dataset. -/
theorem check_and_generate_fields_mutation_amended (df : DataFrame)
    (m : CommodityMapping) :
    ((step1 df).2 = true → caller_after df m = df) ∧
    ((step1 df).2 = false →
      caller_after df m = (check_and_generate_fields df m).1) ∧
    ((check_and_generate_fields df m).2 = false → caller_after df m = df) := by
  refine ⟨?_, ?_, ?_⟩
  · intro h
    simp [caller_after, h]
  · intro h
    simp [caller_after, h]
  · intro h
    rw [check_snd] at h
    simp only [Bool.or_eq_false_iff] at h
    obtain ⟨⟨⟨e1, e2⟩, e3⟩, e4⟩ := h
    have f1 := step1_fst_of_false e1
    rw [f1] at e2
    have f2 := step2_fst_of_false e2
    rw [f1, f2] at e3
    have f3 := step3_fst_of_false e3
    rw [f1, f2, f3] at e4
    have f4 := step4_fst_of_false e4
    have hca : caller_after df m = (check_and_generate_fields df m).1 := by
      simp [caller_after, e1]
    rw [hca, check_fst, f1, f2, f3, f4]

theorem check_and_generate_fields_mutation_amended_witness :
    (step1 dfBallast).2 = true ∧ caller_after dfBallast [] = dfBallast :=
  ⟨by decide, (check_and_generate_fields_mutation_amended dfBallast []).1 (by decide)⟩

/-- C4: DWT bucketing — a missing deadweight maps to `"Unknown"`, otherwise
the inclusive top-down thresholds assign the bucket; including the spec's
boundary cases. -/
theorem get_dwt_type_spec (n : Int) :
    get_dwt_type none = "Unknown" ∧
    (200000 ≤ n → get_dwt_type (some n) = "VLOC") ∧
    (100000 ≤ n → n < 200000 → get_dwt_type (some n) = "Capesize") ∧
    (65000 ≤ n → n < 100000 → get_dwt_type (some n) = "Panamax/Kamsarmax") ∧
    (40000 ≤ n → n < 65000 → get_dwt_type (some n) = "Supramax/Ultramax") ∧
    (n < 40000 → get_dwt_type (some n) = "Handysize") ∧
    get_dwt_type (some 200000) = "VLOC" ∧
    get_dwt_type (some 199999) = "Capesize" ∧
    get_dwt_type (some 100000) = "Capesize" ∧
    get_dwt_type (some 64999) = "Supramax/Ultramax" ∧
    get_dwt_type (some 0) = "Handysize" := by
  refine ⟨rfl, ?_, ?_, ?_, ?_, ?_, by decide, by decide, by decide, by decide,
    by decide⟩
  · intro h
    simp only [get_dwt_type]
    rw [if_pos h]
  · intro h1 h2
    simp only [get_dwt_type]
    rw [if_neg (by omega), if_pos h1]
  · intro h1 h2
    simp only [get_dwt_type]
    rw [if_neg (by omega), if_neg (by omega), if_pos h1]
  · intro h1 h2
    simp only [get_dwt_type]
    rw [if_neg (by omega), if_neg (by omega), if_neg (by omega), if_pos h1]
  · intro h
    simp only [get_dwt_type]
    rw [if_neg (by omega), if_neg (by omega), if_neg (by omega),
      if_neg (by omega)]

theorem get_dwt_type_spec_witness :
    (100000 ≤ (150000 : Int)) ∧ ((150000 : Int) < 200000) ∧
      get_dwt_type (some 150000) = "Capesize" :=
  ⟨by norm_num, by norm_num,
    (get_dwt_type_spec 150000).2.2.1 (by norm_num) (by norm_num)⟩

theorem find_eq_filter_head (p : α → Bool) (l : List α) :
    l.find? p = (l.filter p).head? := by
  induction l with
  | nil => rfl
  | cons a l ih =>
    by_cases h : p a
    · rw [List.find?_cons_of_pos _ h, List.filter_cons_of_pos h, List.head?_cons]
    · rw [List.find?_cons_of_neg _ h, List.filter_cons_of_neg h, ih]

/-- C3: commodity classification — null commodities give the `"Unknown"`
triple; an exact mapping key wins; otherwise the first key in mapping
iteration order that is a case-insensitive substring of the commodity;
otherwise the `"Unknown"` triple; with the spec's two concrete examples. -/
theorem get_commodity_levels_spec (m : CommodityMapping) (c : String) :
    get_commodity_levels m .null = ("Unknown", "Unknown", "Unknown") ∧
    (∀ t, mapLookup m c = some t → get_commodity_levels m (.str c) = t) ∧
    (mapLookup m c = none →
      get_commodity_levels m (.str c) =
        match (m.filter (fun p =>
            listHasSub (strLowerChars p.1) (strLowerChars c))).head? with
        | some p => p.2
        | none => ("Unknown", "Unknown", "Unknown")) ∧
    get_commodity_levels [("Iron Ore", ("Major Bulks", "Iron Ore", "Iron Ore"))]
      (.str "Iron Ore Fines") = ("Major Bulks", "Iron Ore", "Iron Ore") ∧
    get_commodity_levels [("Iron Ore", ("Major Bulks", "Iron Ore", "Iron Ore"))]
      (.str "Unknown Cargo") = ("Unknown", "Unknown", "Unknown") := by
  refine ⟨rfl, ?_, ?_, by decide, by decide⟩
  · intro t h
    simp [get_commodity_levels, h]
  · intro h
    simp only [get_commodity_levels, h]
    rw [find_eq_filter_head]

theorem get_commodity_levels_spec_witness :
    mapLookup [("Coal", ("Major Bulks", "Coal", "Coal"))] "Coal"
      = some ("Major Bulks", "Coal", "Coal") ∧
    get_commodity_levels [("Coal", ("Major Bulks", "Coal", "Coal"))]
      (.str "Coal") = ("Major Bulks", "Coal", "Coal") :=
  ⟨by decide, (get_commodity_levels_spec _ "Coal").2.1 _ (by decide)⟩

/-- A two-row dataset with one laden and one ballast voyage. -/
def dfMixed : DataFrame :=
  ⟨["voyage_type"],
    [[("voyage_type", Value.str "laden")], [("voyage_type", Value.str "ballast")]]⟩

/-- C7: the laden-voyage filter — with a `voyage_type` column, rule 1 keeps
exactly the rows equal to `"laden"` in their original order, reports a drop
iff some row differs, and the generator's final output carries exactly those
rows' `voyage_type` values; without the column the rule does nothing. -/
theorem laden_filter_spec (df : DataFrame) (m : CommodityMapping) :
    ("voyage_type" ∈ df.cols →
      (step1 df).1.rows = df.rows.filter isLadenRow ∧
      ((step1 df).2 = true ↔ ∃ r ∈ df.rows, isLadenRow r = false) ∧
      (check_and_generate_fields df m).1.rows.map (fun r => rowGet r "voyage_type")
        = (df.rows.filter isLadenRow).map (fun r => rowGet r "voyage_type")) ∧
    ("voyage_type" ∉ df.cols → step1 df = (df, false)) := by
  refine ⟨?_, step1_fst_of_not_mem df⟩
  intro hc
  refine ⟨step1_rows_eq_filter df hc, ?_, ?_⟩
  · rw [step1_snd_true_iff]
    constructor
    · rintro ⟨_, h⟩
      exact h
    · intro h
      exact ⟨hc, h⟩
  · rw [check_fst, step4_map_rowGet _ _ (by decide) (by decide) (by decide),
      step3_map_rowGet _ (by decide) (by decide) (by decide) (by decide),
      step2_map_rowGet _ (by decide), step1_rows_eq_filter df hc]

theorem laden_filter_spec_witness :
    "voyage_type" ∈ dfMixed.cols ∧
    (step1 dfMixed).1.rows = [[("voyage_type", Value.str "laden")]] :=
  ⟨by decide,
    ((laden_filter_spec dfMixed []).1 (by decide)).1.trans (by decide)⟩

/-- A row whose `commodity_type_1level` holds a stale value the generator
must overwrite. -/
def rowOv : Row :=
  [("commodity", Value.str "Iron Ore"), ("commodity_type_1level", Value.str "STALE")]

/-- A dataset carrying `rowOv`: `commodity_type_2level`/`3level` are absent,
so rule 4 fires although `commodity_type_1level` already exists. -/
def dfOv : DataFrame := ⟨["commodity", "commodity_type_1level"], [rowOv]⟩

/-- The one-entry mapping of the spec's running example. -/
def mIron : CommodityMapping :=
  [("Iron Ore", ("Major Bulks", "Iron Ore", "Iron Ore"))]

/-- C10 (implicit): when some commodity level column is absent, `commodity`
exists and the mapping is non-empty, rule 4 recomputes and writes all three
level columns for every row — also overwriting level columns that were
already present — and reports a change. -/
theorem commodity_fields_overwrite (df : DataFrame) (m : CommodityMapping)
    (h1 : ∃ f ∈ commodityFieldNames, f ∉ df.cols)
    (h2 : "commodity" ∈ df.cols) (h3 : m ≠ []) :
    (step4 df m).2 = true ∧
    (step4 df m).1.rows = df.rows.map (step4Row m) ∧
    (∀ f ∈ commodityFieldNames, f ∈ (step4 df m).1.cols) ∧
    (∀ r : Row,
      rowGet (step4Row m r) "commodity_type_1level"
        = .str (get_commodity_levels m (rowGet r "commodity")).1 ∧
      rowGet (step4Row m r) "commodity_type_2level"
        = .str (get_commodity_levels m (rowGet r "commodity")).2.1 ∧
      rowGet (step4Row m r) "commodity_type_3level"
        = .str (get_commodity_levels m (rowGet r "commodity")).2.2) := by
  have hg : (commodityFieldNames.filter (fun f => decide (f ∉ df.cols))) ≠ [] ∧
      "commodity" ∈ df.cols ∧ m ≠ [] := by
    refine ⟨?_, h2, h3⟩
    rcases h1 with ⟨f, hf, hnot⟩
    intro hnil
    have := List.filter_eq_nil_iff.mp hnil f hf
    simp [hnot] at this
  refine ⟨?_, ?_, ?_, ?_⟩
  · unfold step4
    rw [if_pos hg]
  · unfold step4
    rw [if_pos hg]
  · intro f hf
    rcases step4_post df m with h | h | h
    · exact h f hf
    · exact absurd (step4_cols_mono df m h2) h
    · exact absurd h h3
  · intro r
    refine ⟨?_, ?_, ?_⟩
    · unfold step4Row
      dsimp only
      rw [rowGet_rowSet_ne _ (by decide), rowGet_rowSet_ne _ (by decide),
        rowGet_rowSet_self]
    · unfold step4Row
      dsimp only
      rw [rowGet_rowSet_ne _ (by decide), rowGet_rowSet_self]
    · unfold step4Row
      dsimp only
      rw [rowGet_rowSet_self]

theorem commodity_fields_overwrite_witness :
    rowGet (step4Row mIron rowOv) "commodity_type_1level"
        = Value.str "Major Bulks" ∧
    (step4 dfOv mIron).2 = true :=
  ⟨((commodity_fields_overwrite dfOv mIron (by decide) (by decide)
      (by decide)).2.2.2 rowOv).1.trans (by decide),
    (commodity_fields_overwrite dfOv mIron (by decide) (by decide)
      (by decide)).1⟩

/-- C9: date-interval filtering retains exactly the rows whose
`load_end_date` lies in `[start, end]` inclusive (in their original order),
excludes every null-dated row once bounds are supplied, and an empty
criteria set returns the input unchanged. -/
theorem time_series_filter_spec (df : DataFrame) (s e : Date) (lt : String) :
    ((dateFilter df (some (s, e))).rows.Sublist df.rows) ∧
    (∀ r : Row, r ∈ (dateFilter df (some (s, e))).rows ↔
        r ∈ df.rows ∧ ∃ d, rowGet r "load_end_date" = Value.date d ∧
          dateLe s d ∧ dateLe d e) ∧
    (∀ r ∈ df.rows, rowGet r "load_end_date" = Value.null →
        r ∉ (dateFilter df (some (s, e))).rows) ∧
    create_time_series_filter df [] [] [] [] none lt [] = df := by
  have hmem : ∀ r : Row, r ∈ (dateFilter df (some (s, e))).rows ↔
      r ∈ df.rows ∧ ∃ d, rowGet r "load_end_date" = Value.date d ∧
        dateLe s d ∧ dateLe d e := by
    intro r
    unfold dateFilter
    dsimp only
    rw [List.mem_filter]
    constructor
    · rintro ⟨hr, hp⟩
      refine ⟨hr, ?_⟩
      rcases hv : rowGet r "load_end_date" with _ | s' | n' | d'
      all_goals rw [hv] at hp
      · exact absurd hp (by simp)
      · exact absurd hp (by simp)
      · exact absurd hp (by simp)
      · exact ⟨d', rfl, of_decide_eq_true hp⟩
    · rintro ⟨hr, d, hv, h1, h2⟩
      refine ⟨hr, ?_⟩
      rw [hv]
      exact decide_eq_true ⟨h1, h2⟩
  refine ⟨?_, hmem, ?_, ?_⟩
  · unfold dateFilter
    dsimp only
    exact List.filter_sublist _
  · intro r _ hnull hin
    rcases (hmem r).mp hin with ⟨_, d, hd, _⟩
    rw [hnull] at hd
    cases hd
  · simp [create_time_series_filter, isinFilter, dateFilter, locationFilter]

theorem time_series_filter_spec_witness :
    ([("load_end_date", Value.date ⟨2023, 2, 15⟩)] : Row)
        ∈ (dateFilter ⟨["load_end_date"],
            [[("load_end_date", Value.date ⟨2023, 2, 15⟩)],
             [("load_end_date", Value.null)]]⟩
            (some (⟨2023, 1, 1⟩, ⟨2023, 12, 31⟩))).rows :=
  ((time_series_filter_spec _ ⟨2023, 1, 1⟩ ⟨2023, 12, 31⟩ "load_zone").2.1
      _).mpr
    ⟨by decide, ⟨2023, 2, 15⟩, by decide, by decide, by decide⟩

/-- The spec's three-row aggregation example: measures 10, 20, 5 under one
group key. -/
def rowsSum35 : List Row :=
  [[("load_zone", Value.str "A"), ("voy_intake_mt", Value.num 10)],
   [("load_zone", Value.str "A"), ("voy_intake_mt", Value.num 20)],
   [("load_zone", Value.str "A"), ("voy_intake_mt", Value.num 5)]]

/-- The spec's top-k example: two groups with sums 10 and 30. -/
def rowsTwoGroups : List Row :=
  [[("load_zone", Value.str "A"), ("voy_intake_mt", Value.num 10)],
   [("load_zone", Value.str "B"), ("voy_intake_mt", Value.num 30)]]

/-- C8: aggregation — every output pair carries the sum of the measure over
its group's rows (missing measures contributing 0), the output keys are
exactly the distinct non-null group keys, the sequence is sorted descending
by summed measure, top-K truncation takes the first K groups after sorting,
empty input gives an empty output, and the spec's two concrete examples. -/
theorem trade_flow_aggregation_spec (rows : List Row) (key : String) (k : Nat) :
    (∀ p ∈ sort_values_desc (groupby_sum rows key),
        p.2 = ((rows.filter (fun r => decide (rowGet r key = p.1))).map
          measureOf).sum) ∧
    ((sort_values_desc (groupby_sum rows key)).map Prod.fst).Perm
      (distinctKeys rows key) ∧
    List.Pairwise (fun a b : Value × Int => b.2 ≤ a.2)
      (sort_values_desc (groupby_sum rows key)) ∧
    trade_flow_agg rows key k = (sort_values_desc (groupby_sum rows key)).take k ∧
    trade_flow_agg [] key k = [] ∧
    groupby_sum rowsSum35 "load_zone" = [(Value.str "A", 35)] ∧
    trade_flow_agg rowsTwoGroups "load_zone" 1 = [(Value.str "B", 30)] := by
  have hperm : (sort_values_desc (groupby_sum rows key)).Perm
      (groupby_sum rows key) :=
    List.perm_insertionSort _ _
  refine ⟨?_, ?_, ?_, rfl, ?_, by decide, by decide⟩
  · intro p hp
    have hp' : p ∈ groupby_sum rows key := hperm.mem_iff.mp hp
    rcases List.mem_map.mp hp' with ⟨kv, hkv, rfl⟩
    rfl
  · have hkeys : (groupby_sum rows key).map Prod.fst = distinctKeys rows key := by
      unfold groupby_sum
      rw [List.map_map]
      conv_rhs => rw [← List.map_id (distinctKeys rows key)]
      exact List.map_congr_left (fun a _ => rfl)
    exact hkeys ▸ hperm.map Prod.fst
  · haveI : IsTotal (Value × Int) (fun a b => b.2 ≤ a.2) :=
      ⟨fun a b => le_total b.2 a.2⟩
    haveI : IsTrans (Value × Int) (fun a b => b.2 ≤ a.2) :=
      ⟨fun a b c h1 h2 => le_trans h2 h1⟩
    exact List.sorted_insertionSort _ _
  · simp [trade_flow_agg, sort_values_desc, groupby_sum, distinctKeys]

theorem trade_flow_aggregation_spec_witness :
    (Value.str "B", (30 : Int)) ∈ sort_values_desc (groupby_sum rowsTwoGroups "load_zone") ∧
    (30 : Int) = ((rowsTwoGroups.filter (fun r =>
        decide (rowGet r "load_zone" = Value.str "B"))).map measureOf).sum :=
  ⟨by decide,
    (trade_flow_aggregation_spec rowsTwoGroups "load_zone" 1).1
      (Value.str "B", 30) (by decide)⟩

/-! ## Lemmas on `dictInsert`, lookup and the fold characterising `traverse` -/

theorem mapLookup_eq_none_iff {α : Type} (m : List (String × α)) (c : String) :
    mapLookup m c = none ↔ ∀ p ∈ m, p.1 ≠ c := by
  induction m with
  | nil => simp [mapLookup]
  | cons p m ih =>
    by_cases hp : p.1 = c
    · simp only [mapLookup, if_pos hp]
      constructor
      · intro h
        cases h
      · intro h
        exact absurd hp (h p (List.mem_cons_self p m))
    · simp only [mapLookup, if_neg hp]
      rw [ih]
      constructor
      · intro h q hq
        rcases List.mem_cons.mp hq with rfl | hq
        · exact hp
        · exact h q hq
      · intro h q hq
        exact h q (List.mem_cons_of_mem p hq)

theorem mapLookup_dictInsert {α : Type} (m : List (String × α))
    (k c : String) (v : α) :
    mapLookup (dictInsert m k v) c = if k = c then some v else mapLookup m c := by
  induction m with
  | nil => simp [dictInsert, mapLookup]
  | cons p m ih =>
    simp only [dictInsert]
    by_cases hp : p.1 = k
    · rw [if_pos hp]
      by_cases hk : k = c
      · simp [mapLookup, hk]
      · have hpc : p.1 ≠ c := fun hh => hk (hp.symm.trans hh)
        simp [mapLookup, hk, hpc]
    · rw [if_neg hp]
      by_cases hc : p.1 = c
      · have hk : k ≠ c := fun hh => hp (hc.trans hh.symm)
        simp [mapLookup, hc, hk]
      · simp [mapLookup, hc, ih]

theorem keys_dictInsert_mem {α : Type} (m : List (String × α))
    (k x : String) (v : α) :
    x ∈ (dictInsert m k v).map Prod.fst ↔ x ∈ m.map Prod.fst ∨ x = k := by
  induction m with
  | nil => simp [dictInsert]
  | cons p m ih =>
    simp only [dictInsert]
    by_cases hp : p.1 = k
    · rw [if_pos hp]
      simp only [List.map_cons, List.mem_cons, hp]
      tauto
    · rw [if_neg hp]
      simp only [List.map_cons, List.mem_cons, ih]
      tauto

theorem nodup_keys_dictInsert {α : Type} (m : List (String × α))
    (k : String) (v : α) (h : (m.map Prod.fst).Nodup) :
    ((dictInsert m k v).map Prod.fst).Nodup := by
  induction m with
  | nil => simp [dictInsert]
  | cons p m ih =>
    rw [List.map_cons, List.nodup_cons] at h
    simp only [dictInsert]
    by_cases hp : p.1 = k
    · rw [if_pos hp]
      simp only [List.map_cons, List.nodup_cons]
      exact ⟨hp ▸ h.1, h.2⟩
    · rw [if_neg hp]
      simp only [List.map_cons, List.nodup_cons]
      refine ⟨?_, ih h.2⟩
      intro hmem
      rcases (keys_dictInsert_mem m k p.1 v).mp hmem with hm | he
      · exact h.1 hm
      · exact hp he

theorem mem_dictInsert {α : Type} (m : List (String × α)) (k : String) (v : α)
    {pr : String × α} (h : pr ∈ dictInsert m k v) : pr ∈ m ∨ pr = (k, v) := by
  induction m with
  | nil => exact Or.inr (List.mem_singleton.mp h)
  | cons p m ih =>
    by_cases hp : p.1 = k
    · simp only [dictInsert, if_pos hp] at h
      rcases List.mem_cons.mp h with rfl | h
      · exact Or.inr rfl
      · exact Or.inl (List.mem_cons_of_mem p h)
    · simp only [dictInsert, if_neg hp] at h
      rcases List.mem_cons.mp h with rfl | h
      · exact Or.inl (List.mem_cons_self _ _)
      · rcases ih h with h' | h'
        · exact Or.inl (List.mem_cons_of_mem p h')
        · exact Or.inr h'

theorem mapLookup_foldl_insert {α : Type} (ps acc : List (String × α))
    (c : String) :
    mapLookup (ps.foldl (fun mp pr => dictInsert mp pr.1 pr.2) acc) c =
      match ps.reverse.find? (fun pr => decide (pr.1 = c)) with
      | some pr => some pr.2
      | none => mapLookup acc c := by
  induction ps generalizing acc with
  | nil => rfl
  | cons p ps ih =>
    rw [List.foldl_cons, ih, List.reverse_cons, List.find?_append]
    cases hf : ps.reverse.find? (fun pr => decide (pr.1 = c)) with
    | some pr => simp
    | none =>
      by_cases hp : p.1 = c
      · simp [List.find?, hp, mapLookup_dictInsert]
      · simp [List.find?, hp, mapLookup_dictInsert]

theorem keys_foldl_insert_mem {α : Type} (ps acc : List (String × α))
    (x : String) :
    x ∈ (ps.foldl (fun mp pr => dictInsert mp pr.1 pr.2) acc).map Prod.fst ↔
      x ∈ acc.map Prod.fst ∨ x ∈ ps.map Prod.fst := by
  induction ps generalizing acc with
  | nil => simp
  | cons p ps ih =>
    rw [List.foldl_cons, ih, keys_dictInsert_mem]
    simp only [List.map_cons, List.mem_cons]
    tauto

theorem nodup_keys_foldl_insert {α : Type} (ps acc : List (String × α))
    (h : (acc.map Prod.fst).Nodup) :
    ((ps.foldl (fun mp pr => dictInsert mp pr.1 pr.2) acc).map Prod.fst).Nodup := by
  induction ps generalizing acc with
  | nil => exact h
  | cons p ps ih => exact ih _ (nodup_keys_dictInsert _ _ _ h)

theorem mem_foldl_insert {α : Type} (ps acc : List (String × α))
    {pr : String × α}
    (h : pr ∈ ps.foldl (fun mp q => dictInsert mp q.1 q.2) acc) :
    pr ∈ acc ∨ pr ∈ ps := by
  induction ps generalizing acc with
  | nil => exact Or.inl h
  | cons p ps ih =>
    rcases ih _ h with h' | h'
    · rcases mem_dictInsert _ _ _ h' with h'' | h''
      · exact Or.inl h''
      · right
        rw [h'']
        exact List.mem_cons_self p ps
    · exact Or.inr (List.mem_cons_of_mem p h')

theorem insertLeaves_eq_foldl (items path : List String)
    (mp : CommodityMapping) :
    insertLeaves items path mp
      = (items.map (fun i => (i, levelsOfPath path))).foldl
          (fun acc pr => dictInsert acc pr.1 pr.2) mp := by
  induction items generalizing mp with
  | nil => rfl
  | cons i items ih =>
    simp only [insertLeaves, List.map_cons, List.foldl_cons]
    exact ih _

mutual

theorem traverse_eq_foldl (t : TaxNode) (path : List String)
    (mp : CommodityMapping) :
    traverse t path mp
      = (traversalPairs t path).foldl
          (fun acc pr => dictInsert acc pr.1 pr.2) mp := by
  cases t with
  | node children =>
    simp only [traverse, traversalPairs]
    exact traverseChildren_eq_foldl children path mp
  | leaves items =>
    simp only [traverse, traversalPairs]
    exact insertLeaves_eq_foldl items path mp

theorem traverseChildren_eq_foldl (cs : List (String × TaxNode))
    (path : List String) (mp : CommodityMapping) :
    traverseChildren cs path mp
      = (traversalPairsChildren cs path).foldl
          (fun acc pr => dictInsert acc pr.1 pr.2) mp := by
  cases cs with
  | nil => rfl
  | cons q cs =>
    rcases q with ⟨key, child⟩
    simp only [traverseChildren, traversalPairsChildren, List.foldl_append]
    rw [traverse_eq_foldl child (path ++ [key]) mp,
      traverseChildren_eq_foldl cs path]

end

mutual

/-- The leaf terms reachable in a taxonomy, in traversal order. -/
def leavesOf : TaxNode → List String
  | .leaves items => items
  | .node children => leavesOfChildren children

/-- Companion of `leavesOf` on child lists. -/
def leavesOfChildren : List (String × TaxNode) → List String
  | [] => []
  | (_, child) :: rest => leavesOf child ++ leavesOfChildren rest

end

mutual

theorem keys_traversalPairs (t : TaxNode) (path : List String) :
    (traversalPairs t path).map Prod.fst = leavesOf t := by
  cases t with
  | leaves items =>
    simp only [traversalPairs, leavesOf, List.map_map]
    conv_rhs => rw [← List.map_id items]
    exact List.map_congr_left (fun a _ => rfl)
  | node children =>
    simp only [traversalPairs, leavesOf]
    exact keys_traversalPairsChildren children path

theorem keys_traversalPairsChildren (cs : List (String × TaxNode))
    (path : List String) :
    (traversalPairsChildren cs path).map Prod.fst = leavesOfChildren cs := by
  cases cs with
  | nil => rfl
  | cons q cs =>
    rcases q with ⟨key, child⟩
    simp only [traversalPairsChildren, leavesOfChildren, List.map_append]
    rw [keys_traversalPairs child (path ++ [key]),
      keys_traversalPairsChildren cs path]

end

mutual

theorem mem_leavesOf_iff (t : TaxNode) (leaf : String) :
    leaf ∈ leavesOf t ↔ ∃ p, ReachesVia t p leaf := by
  cases t with
  | leaves items =>
    simp only [leavesOf]
    constructor
    · intro h
      exact ⟨[], ReachesVia.here h⟩
    · rintro ⟨p, hp⟩
      cases hp with
      | here h => exact h
  | node children =>
    simp only [leavesOf]
    rw [mem_leavesOfChildren_iff children leaf]
    constructor
    · rintro ⟨k, t', p, hmem, hr⟩
      exact ⟨k :: p, ReachesVia.child hmem hr⟩
    · rintro ⟨p, hp⟩
      cases hp with
      | child hmem hr => exact ⟨_, _, _, hmem, hr⟩

theorem mem_leavesOfChildren_iff (cs : List (String × TaxNode)) (leaf : String) :
    leaf ∈ leavesOfChildren cs ↔
      ∃ k t' p, (k, t') ∈ cs ∧ ReachesVia t' p leaf := by
  cases cs with
  | nil =>
    simp only [leavesOfChildren, List.not_mem_nil, false_iff]
    rintro ⟨k, t', p, hmem, _⟩
    cases hmem
  | cons q cs =>
    rcases q with ⟨key, child⟩
    simp only [leavesOfChildren, List.mem_append]
    rw [mem_leavesOf_iff child leaf, mem_leavesOfChildren_iff cs leaf]
    constructor
    · rintro (⟨p, hp⟩ | ⟨k, t', p, hmem, hr⟩)
      · exact ⟨key, child, p, List.mem_cons_self _ _, hp⟩
      · exact ⟨k, t', p, List.mem_cons_of_mem _ hmem, hr⟩
    · rintro ⟨k, t', p, hmem, hr⟩
      rcases List.mem_cons.mp hmem with he | hmem'
      · left
        injection he with h1 h2
        subst h2
        exact ⟨p, hr⟩
      · right
        exact ⟨k, t', p, hmem', hr⟩

end

theorem mem_traversalPairsChildren_of_mem {cs : List (String × TaxNode)}
    {k : String} {t : TaxNode} (hmem : (k, t) ∈ cs) {x : String × (String × String × String)}
    (base : List String) (hx : x ∈ traversalPairs t (base ++ [k])) :
    x ∈ traversalPairsChildren cs base := by
  induction cs with
  | nil => cases hmem
  | cons q cs ih =>
    rcases q with ⟨key, child⟩
    simp only [traversalPairsChildren, List.mem_append]
    rcases List.mem_cons.mp hmem with he | hmem'
    · left
      injection he with h1 h2
      subst h1
      subst h2
      exact hx
    · right
      exact ih hmem'

theorem reaches_mem_traversalPairs {t : TaxNode} {p : List String}
    {leaf : String} (h : ReachesVia t p leaf) :
    ∀ base, (leaf, levelsOfPath (base ++ p)) ∈ traversalPairs t base := by
  induction h with
  | here hmem =>
    intro base
    simp only [traversalPairs, List.append_nil]
    exact List.mem_map.mpr ⟨_, hmem, rfl⟩
  | @child cs k t2 p2 leaf2 hmem hr ih =>
    intro base
    simp only [traversalPairs]
    have heq : base ++ k :: p2 = (base ++ [k]) ++ p2 := by simp
    rw [heq]
    exact mem_traversalPairsChildren_of_mem hmem base (ih (base ++ [k]))

theorem one_level_pairs {cs : List (String × TaxNode)}
    (hcs : ∀ c ∈ cs, ∃ items, c.2 = TaxNode.leaves items)
    {pr : String × (String × String × String)}
    (h : pr ∈ traversalPairsChildren cs []) :
    ∃ key, pr.2 = levelsOfPath [key] := by
  induction cs with
  | nil => exact absurd h (List.not_mem_nil pr)
  | cons q cs ih =>
    rcases q with ⟨key, child⟩
    simp only [traversalPairsChildren, List.mem_append] at h
    rcases h with h | h
    · rcases hcs (key, child) (List.mem_cons_self _ _) with ⟨items, hitems⟩
      dsimp only at hitems
      subst hitems
      simp only [traversalPairs] at h
      rcases List.mem_map.mp h with ⟨i, _, he⟩
      refine ⟨key, ?_⟩
      rw [← he]
      rfl
    · exact ih (fun c hc => hcs c (List.mem_cons_of_mem _ hc)) h

/-- C5: level assignment during flattening — every leaf reached via ancestor
path `p` is inserted with the triple `levelsOfPath p`, which equals
(`p[0]` or `"Unknown"`, `p[1]` or `level1`, `p[2]` or `level2`); and in every
taxonomy with a single level of nesting all three levels of every mapping
entry coincide. -/
theorem build_commodity_mapping_levels_spec (t : TaxNode) (p : List String)
    (leaf : String) (h : ReachesVia t p leaf) :
    (leaf, levelsOfPath p) ∈ traversalPairs t [] ∧
    levelsOfPath p = (p.getD 0 "Unknown", p.getD 1 (p.getD 0 "Unknown"),
      p.getD 2 (p.getD 1 (p.getD 0 "Unknown"))) ∧
    (∀ cs : List (String × TaxNode),
      (∀ c ∈ cs, ∃ items, c.2 = TaxNode.leaves items) →
      ∀ pr ∈ build_commodity_mapping (.node cs),
        pr.2.1 = pr.2.2.1 ∧ pr.2.2.1 = pr.2.2.2) := by
  refine ⟨?_, rfl, ?_⟩
  · have hb := reaches_mem_traversalPairs h []
    simpa using hb
  · intro cs hcs pr hpr
    rw [build_commodity_mapping, traverse_eq_foldl] at hpr
    rcases mem_foldl_insert _ _ hpr with h2 | h2
    · exact absurd h2 (List.not_mem_nil pr)
    · simp only [traversalPairs] at h2
      rcases one_level_pairs hcs h2 with ⟨key, hkey⟩
      rw [hkey]
      exact ⟨rfl, rfl⟩

/-- The two-level default-taxonomy fragment used as witness data. -/
def taxEx : TaxNode :=
  .node [("Major Bulks", .node [("Iron Ore", .leaves ["Iron Ore"])])]

theorem build_commodity_mapping_levels_spec_witness :
    ("Iron Ore", levelsOfPath ["Major Bulks", "Iron Ore"])
      ∈ traversalPairs taxEx [] :=
  (build_commodity_mapping_levels_spec taxEx ["Major Bulks", "Iron Ore"]
    "Iron Ore"
    (ReachesVia.child (List.mem_cons_self _ _)
      (ReachesVia.child (List.mem_cons_self _ _)
        (ReachesVia.here (List.mem_cons_self _ _))))).1

/-- C6: flattened-mapping completeness — a leaf is a key of the mapping iff
it is reachable from the root, keys carry no duplicates, a key's triple is
the one of the last traversal-order occurrence of that leaf, and the empty
taxonomy flattens to the empty mapping. -/
theorem build_commodity_mapping_complete (t : TaxNode) :
    (∀ leaf, (∃ p, ReachesVia t p leaf) ↔
        leaf ∈ (build_commodity_mapping t).map Prod.fst) ∧
    ((build_commodity_mapping t).map Prod.fst).Nodup ∧
    (∀ leaf, mapLookup (build_commodity_mapping t) leaf =
        ((traversalPairs t []).reverse.find?
          (fun pr => decide (pr.1 = leaf))).map Prod.snd) ∧
    build_commodity_mapping (TaxNode.node []) = [] := by
  refine ⟨?_, ?_, ?_, rfl⟩
  · intro leaf
    rw [← mem_leavesOf_iff, build_commodity_mapping, traverse_eq_foldl,
      keys_foldl_insert_mem, keys_traversalPairs]
    simp
  · rw [build_commodity_mapping, traverse_eq_foldl]
    exact nodup_keys_foldl_insert _ _ (by simp)
  · intro leaf
    rw [build_commodity_mapping, traverse_eq_foldl, mapLookup_foldl_insert]
    cases hf : (traversalPairs t []).reverse.find?
        (fun pr => decide (pr.1 = leaf)) with
    | some pr => simp
    | none => simp [mapLookup]

end AxsAnalysis
